import Mathlib

/-!
Verification of the function-analysis engine (evaluacion.py / logica.py).

The Python code chains fallible SymPy operations.  We embed the control
flow shallowly: every SymPy call the code makes is an input (an oracle
field of type `Except String _`, where `.error e` models the call raising
an exception with message `e`), and the embedded functions reproduce the
source's branching, step-trace building and fallback chains exactly.
Numeric sampling values are modelled as exact rationals together with
markers for the non-finite floats (`inf`, `-inf`, `nan`) that
`np.isfinite` filters out.
-/

set_option linter.unusedVariables false

/-- Endpoint of a numeric interval: minus infinity, plus infinity, or a finite rational. -/
inductive Extremo where
  | negInf : Extremo
  | posInf : Extremo
  | fin : ℚ → Extremo
  deriving DecidableEq

/-- Display form of an endpoint (stand-in for SymPy printing, used in step messages). -/
def Extremo.cadena : Extremo → String
  | .negInf => "-oo"
  | .posInf => "oo"
  | .fin q => toString q

/-- SymPy symbolic sets, at the level of shape the source code observes:
`S.Reals`, `EmptySet`, `Interval`, `FiniteSet`, `Union`, other unrecognized
shapes (e.g. `ConditionSet`), and the set difference `S.Reals - s` that
`calcular_dominio` builds.  Shapes the code never inspects internally carry
an opaque tag. -/
inductive SymSet where
  | reals : SymSet
  | vacio : SymSet
  | intervalo : Extremo → Extremo → SymSet
  | conjFinito : ℕ → SymSet
  | unionConj : ℕ → SymSet
  | condConj : ℕ → SymSet
  | menosReals : SymSet → SymSet
  deriving DecidableEq

/-- Display form of a symbolic set (stand-in for SymPy printing). -/
def SymSet.cadena : SymSet → String
  | .reals => "Reals"
  | .vacio => "EmptySet"
  | .intervalo a b => "Interval(" ++ a.cadena ++ ", " ++ b.cadena ++ ")"
  | .conjFinito t => "FiniteSet#" ++ toString t
  | .unionConj t => "Union#" ++ toString t
  | .condConj t => "ConditionSet#" ++ toString t
  | .menosReals s => "Complement(Reals, " ++ s.cadena ++ ")"

/-- A SymPy expression as the evalucode observes it: its printed form,
the result of the `_is_bad` classification (has `oo`/`zoo`/`nan` or
`is_infinite is True`), the tri-valued `is_real` attribute, and the
`is_number` attribute. -/
structure SymExpr where
  repr : String
  isBad : Bool
  isReal : Option Bool
  isNumber : Bool
  deriving DecidableEq

/-- Result record of `evaluar_punto` (dataclass `EvaluacionResultado`). -/
structure EvaluacionResultado where
  exacto : Option SymExpr
  decimal : Option ℚ
  pasos : List String
  latexp : List (String × String)
  fuera_de_dominio : Bool
  error : Option String
  deriving DecidableEq

/-- Oracle for the SymPy calls a single `evaluar_punto` run makes.
`.error e` models the call raising an exception with message `e`. -/
structure EvalOracle where
  /-- `continuous_domain(expr, x, S.Reals)` -/
  contDomain : Except String SymSet
  /-- `simplify(expr)`: the result, and whether it is a distinct object
  from `expr` (Python `expr_proc is not expr`). -/
  simplifyPre : Except String (SymExpr × Bool)
  /-- `S(x0) in dominio` (membership test inside `_esta_en_dominio`). -/
  pertenencia : Except String Bool
  /-- `expr_proc.subs(x, x0S)` -/
  sustitucion : Except String SymExpr
  /-- `limit(expr_proc, x, x0S)` -/
  limite : Except String SymExpr
  /-- `float(N(lim, ndigits + 2))` for the limit value -/
  limiteFloat : Except String ℚ
  /-- `simplify(expr_sub)` -/
  simplifyPost : Except String SymExpr
  /-- `float(N(exacto, ndigits + 2))` for the substituted value -/
  exactoFloat : Except String ℚ

/-- The terminal error result built by the outer `except` of `evaluar_punto`. -/
def resultadoError (pasos : List String) (lx : List (String × String)) (e : String) :
    EvaluacionResultado :=
  ⟨none, none, pasos ++ ["✗ Se produjo un error durante la evaluación."], lx, false, some e⟩

/-- Lines 124-150 of evaluacion.py: the branch taken when direct
substitution is classified bad (`_is_bad(expr_sub)`). -/
def ramaBad (o : EvalOracle) (x0 : SymExpr) (usar_limite solo_reales : Bool)
    (pasos5 : List String) (lx5 : List (String × String)) : EvaluacionResultado :=
  let pasos6 := pasos5 ++ ["6) La sustitución directa indica indeterminación/∞/NaN."]
  if usar_limite = true then
    match o.limite with
    | .error e =>
        ⟨none, none,
          pasos6 ++ ["7) No fue posible calcular el límite (" ++ e ++ "). → fuera de dominio."],
          lx5, true, none⟩
    | .ok lim =>
        let pasos7 := pasos6 ++ ["7) Límite al aproximar x→" ++ x0.repr ++ ": " ++ lim.repr]
        let lx7 := lx5 ++ [("limite", "lim x→" ++ x0.repr ++ ": " ++ lim.repr)]
        if lim.isBad = false ∧ (solo_reales = false ∨ lim.isReal = some true) then
          match (if lim.isNumber = true then o.limiteFloat.map some else Except.ok none) with
          | .error e => resultadoError pasos7 lx7 e
          | .ok dec =>
              let pasos8 := pasos7 ++
                (match dec with
                 | some q => ["8) Valor decimal (desde límite): " ++ toString q]
                 | none => [])
              let lx8 := lx7 ++
                (match dec with
                 | some q => [("decimal", toString q)]
                 | none => [])
              ⟨some lim, dec,
                pasos8 ++ ["9) Interpretación: discontinuidad removible → se usa el valor del límite."],
                lx8 ++ [("exacto", lim.repr)], false, none⟩
        else
          ⟨none, none, pasos7 ++ ["7b) Límite no finito o no real → fuera de dominio."],
            lx7, true, none⟩
  else
    ⟨none, none, pasos6, lx5, true, none⟩

/-- Lines 152-176 of evaluacion.py: the branch taken when direct
substitution gave a valid (not bad) expression. -/
def ramaOk (o : EvalOracle) (solo_reales : Bool) (esub : SymExpr)
    (pasos5 : List String) (lx5 : List (String × String)) : EvaluacionResultado :=
  match o.simplifyPost with
  | .error e => resultadoError pasos5 lx5 e
  | .ok esimpl =>
      let pasos6 := pasos5 ++
        [if esimpl ≠ esub then
           "6) Simplificación posterior: " ++ esub.repr ++ "  →  " ++ esimpl.repr
         else "6) La expresión ya está simplificada tras la sustitución."]
      let lx6 := lx5 ++ [("simplif_posterior", esimpl.repr)]
      if solo_reales = true ∧ esimpl.isReal = some false then
        ⟨none, none,
          pasos6 ++ ["7) El valor exacto no es real → fuera de dominio (modo solo_reales)."],
          lx6, true, none⟩
      else
        let pasos7 := pasos6 ++ ["7) Valor exacto: " ++ esimpl.repr]
        let lx7 := lx6 ++ [("exacto", esimpl.repr)]
        match (if esimpl.isNumber = true then o.exactoFloat.map some else Except.ok none) with
        | .error e => resultadoError pasos7 lx7 e
        | .ok dec =>
            let pasos8 := pasos7 ++
              (match dec with
               | some q => ["8) Valor decimal: " ++ toString q]
               | none => [])
            let lx8 := lx7 ++
              (match dec with
               | some q => [("decimal", toString q)]
               | none => [])
            ⟨some esimpl, dec, pasos8, lx8, false, none⟩

/-- Lines 102-176 of evaluacion.py: the pipeline from the pre-substitution
simplification (step 3) onward, given the resolved domain and the step
trace built so far. -/
def desdePaso3 (o : EvalOracle) (expr x0 : SymExpr)
    (usar_limite simplificar_antes solo_reales : Bool) (dominio : Option SymSet)
    (pasos2 : List String) (lx2 : List (String × String)) : EvaluacionResultado :=
  match (if simplificar_antes = true then o.simplifyPre else Except.ok (expr, false)) with
  | .error e => resultadoError pasos2 lx2 e
  | .ok (exprProc, distinto) =>
      let pasos3 := pasos2 ++
        [if simplificar_antes = true ∧ distinto = true then
           "3) Simplificación previa: " ++ expr.repr ++ "  →  " ++ exprProc.repr
         else "3) Sin simplificación previa (opción desactivada o no cambió)."]
      let lx3 := lx2 ++ [("simplif_previa", exprProc.repr)]
      let pertenece :=
        match dominio with
        | none => true
        | some _ =>
            match o.pertenencia with
            | .ok b => b
            | .error _ => true
      let pasos4 := pasos3 ++
        [match dominio with
         | some _ => "4) ¿x0 ∈ dominio? → " ++ (if pertenece = true then "Sí" else "No")
         | none => "4) Dominio no explícito; se validará por evaluación directa/limit."]
      match o.sustitucion with
      | .error e => resultadoError pasos4 lx3 e
      | .ok esub =>
          let pasos5 := pasos4 ++ ["5) Sustitución: f(" ++ x0.repr ++ ") = " ++ esub.repr]
          let lx5 := lx3 ++ [("sustitucion", "f(" ++ x0.repr ++ ") = " ++ esub.repr)]
          if esub.isBad = true then ramaBad o x0 usar_limite solo_reales pasos5 lx5
          else ramaOk o solo_reales esub pasos5 lx5

/-- `evaluar_punto` of evaluacion.py with an explicit initial step list
(the source starts from `pasos = []`; threading the list makes the
append-only invariant statable).  Steps 1 and 2 (original expression and
domain resolution), then the rest of the pipeline via `desdePaso3`. -/
def evaluarAux (o : EvalOracle) (expr x0 : SymExpr) (var : String) (ndigits : ℕ)
    (dominio0 : Option SymSet) (usar_limite simplificar_antes solo_reales : Bool)
    (pasos0 : List String) : EvaluacionResultado :=
  let pasos1 := pasos0 ++ ["1) Expresión original (ℝ): f(" ++ var ++ ") = " ++ expr.repr]
  let lx1 := [("expr_original", "f(" ++ var ++ ") = " ++ expr.repr)]
  match dominio0 with
  | some d => desdePaso3 o expr x0 usar_limite simplificar_antes solo_reales (some d) pasos1 lx1
  | none =>
      match o.contDomain with
      | .ok d =>
          desdePaso3 o expr x0 usar_limite simplificar_antes solo_reales (some d)
            (pasos1 ++ ["2) Dominio de continuidad estimado: " ++ d.cadena])
            (lx1 ++ [("dominio", d.cadena)])
      | .error _ =>
          desdePaso3 o expr x0 usar_limite simplificar_antes solo_reales none
            (pasos1 ++ ["2) No se pudo determinar dominio; se asume ℝ (con validación puntual)."])
            lx1

/-- `evaluar_punto(expr, x0, var, ndigits, dominio, usar_limite,
simplificar_antes, solo_reales)` of evaluacion.py. -/
def evaluar_punto (o : EvalOracle) (expr x0 : SymExpr) (var : String) (ndigits : ℕ)
    (dominio0 : Option SymSet) (usar_limite simplificar_antes solo_reales : Bool) :
    EvaluacionResultado :=
  evaluarAux o expr x0 var ndigits dominio0 usar_limite simplificar_antes solo_reales []

/-! ## logica.py -/

/-- A Python value passed as `expr_str`: either a string or some non-string object. -/
inductive EntradaPy where
  | cadena : String → EntradaPy
  | noCadena : ℕ → EntradaPy
  deriving DecidableEq

/-- Whitespace as Python `str.strip()` removes (ASCII subset). -/
def esEspacio (c : Char) : Bool :=
  c = ' ' || c = '\t' || c = '\n' || c = '\r' || c = '\x0b' || c = '\x0c'

/-- `not expr_str.strip()`: the string is empty or consists only of whitespace. -/
def esVacioTrasStrip (s : String) : Bool :=
  s.toList.all esEspacio

/-- Outcome classification for `analizar_funcion`: the explicit `ValueError`
it raises on invalid input, versus an exception propagating out of the parser. -/
inductive ErrorAnalisis where
  | valueError : String → ErrorAnalisis
  | errorParse : String → ErrorAnalisis
  deriving DecidableEq

/-- `analizar_funcion(expr_str, var)` of logica.py.  The parsing pipeline
(`parse_expr` plus the symbol substitution) is the oracle `parseExpr`. -/
def analizar_funcion (parseExpr : String → Except String SymExpr) (entrada : EntradaPy) :
    Except ErrorAnalisis SymExpr :=
  match entrada with
  | .noCadena _ => .error (.valueError ("expr_str debe ser un string no vacío"))
  | .cadena s =>
      if esVacioTrasStrip s = true then
        .error (.valueError ("expr_str debe ser un string no vacío"))
      else
        match parseExpr s with
        | .ok e => .ok e
        | .error m => .error (.errorParse m)

/-- Oracle for the SymPy calls `calcular_dominio` makes. -/
structure DomOracle where
  /-- `continuous_domain(expr, x, S.Reals)` -/
  contDomain : Except String SymSet
  /-- `solveset_real(expr.as_numer_denom()[1], x)` (either step raising is `.error`) -/
  cerosDen : Except String SymSet

/-- `isinstance(den_zeros, (FiniteSet, Interval, Union))`.  (`S.Reals` is
also an `Interval` instance in SymPy, but the source tests `den_zeros is
S.Reals` first, so that case never reaches this test; the embedded
`calcular_dominio` keeps the same test order.) -/
def esFormaReconocida : SymSet → Bool
  | .conjFinito _ => true
  | .intervalo _ _ => true
  | .unionConj _ => true
  | _ => false

/-- `calcular_dominio(expr, var)` of logica.py (lines 71-95). -/
def calcular_dominio (o : DomOracle) : SymSet :=
  match o.contDomain with
  | .ok d => d
  | .error _ =>
      match o.cerosDen with
      | .error _ => .reals
      | .ok z =>
          if z = SymSet.reals then .reals
          else if esFormaReconocida z = true then .menosReals z
          else .reals

/-- A float that a lambdified evaluation produces: a finite rational or one
of the non-finite IEEE values that `np.isfinite` rejects. -/
inductive ValorNum where
  | fin : ℚ → ValorNum
  | masInf : ValorNum
  | menosInf : ValorNum
  | noNum : ValorNum
  deriving DecidableEq

/-- `np.linspace(a, b, n)`: `n` evenly spaced points from `a` to `b` inclusive. -/
def linspace (a b : ℚ) (n : ℕ) : List ℚ :=
  match n with
  | 0 => []
  | 1 => [a]
  | _ => (List.range n).map (fun i => a + (b - a) * i / ((n : ℚ) - 1))

/-- Lines 162-169 of logica.py: mask out grid points whose denominator value
is within `1e-9` of zero.  The bulk denominator evaluation sits in a
`try/except: pass`, so if it raises (some point fails) the mask is left
all-true and the grid is kept whole. -/
def mascaraDen (df : ℚ → Option ValorNum) (xs : List ℚ) : List ℚ :=
  if xs.all (fun q => (df q).isSome) = true then
    xs.filter (fun q =>
      match df q with
      | some (.fin v) => decide ((1 : ℚ) / 1000000000 < |v|)
      | some .masInf => true
      | some .menosInf => true
      | some .noNum => false
      | none => false)
  else xs

/-- Lines 172-184: bulk evaluation of `f` over the grid, with the
point-by-point retry that silently drops points that raise.  (Bulk success
and the pointwise retry produce the same surviving value list.) -/
def valoresMuestra (f : ℚ → Option ValorNum) (xs : List ℚ) : List ValorNum :=
  xs.filterMap f

/-- Line 187: `ys[np.isfinite(ys)]` — keep the finite values. -/
def finitos (vs : List ValorNum) : List ℚ :=
  vs.filterMap (fun v =>
    match v with
    | .fin q => some q
    | _ => none)

/-- `np.min` over a nonempty list (0 as the irrelevant default for `[]`). -/
def minimoLista (l : List ℚ) : ℚ :=
  match l with
  | [] => 0
  | a :: r => r.foldl min a

/-- `np.max` over a nonempty list (0 as the irrelevant default for `[]`). -/
def maximoLista (l : List ℚ) : ℚ :=
  match l with
  | [] => 0
  | a :: r => r.foldl max a

/-- The finite surviving sample values of one interval: grid, denominator
mask, evaluation, finiteness filter (lines 156-187 of logica.py). -/
def finitosIntervalo (f : ℚ → Option ValorNum) (df? : Option (ℚ → Option ValorNum))
    (puntos : ℕ) (I : ℚ × ℚ) : List ℚ :=
  let xs := linspace I.1 I.2 puntos
  let xs2 :=
    match df? with
    | none => xs
    | some df => mascaraDen df xs
  finitos (valoresMuestra f xs2)

/-- One iteration of the sampling loop (lines 155-194): the recorded
`(min, max)` pair if the interval contributed values, and this interval's
contributions to the `infinito_pos` / `infinito_neg` flags.  The interim
emptiness checks (`xs.size == 0`, `not ys`, `ys.size == 0`) all collapse to
the finite value list being empty. -/
def pasoIntervaloOk (f : ℚ → Option ValorNum) (df? : Option (ℚ → Option ValorNum))
    (puntos : ℕ) (umbral : ℚ) (I : ℚ × ℚ) : Option (ℚ × ℚ) × Bool × Bool :=
  let fv := finitosIntervalo f df? puntos I
  match fv with
  | [] => (none, false, false)
  | _ :: _ =>
      (some (minimoLista fv, maximoLista fv),
        fv.any (fun q => decide (umbral < q)),
        fv.any (fun q => decide (q < -umbral)))

/-- Oracle for the SymPy calls `calcular_recorrido` makes. -/
structure RecOracle where
  /-- oracles for the `calcular_dominio` call when no domain is supplied -/
  domO : DomOracle
  /-- `function_range is not None` (the import succeeded) -/
  rangoDisponible : Bool
  /-- `function_range(expr, x, dominio)` -/
  rangoSimb : Except String SymSet
  /-- `lambdify(x, expr, modules=["numpy"])`, as a pointwise evaluator;
  `none` at a point models that point raising during evaluation -/
  lamF : Except String (ℚ → Option ValorNum)
  /-- `expr.as_numer_denom()[1] == 1` (no denominator mask) -/
  denEsUno : Bool
  /-- `lambdify(x, den, modules=["numpy"])` -/
  lamDen : Except String (ℚ → Option ValorNum)

/-- Line 161: `lambdify(x, den, ...) if den != 1 else None`. -/
def denLam (o : RecOracle) : Except String (Option (ℚ → Option ValorNum)) :=
  if o.denEsUno = true then .ok none else o.lamDen.map some

/-- One iteration of the sampling loop including the denominator lambdify,
whose exception escapes to the outer `except` of the fallback. -/
def pasoIntervalo (o : RecOracle) (f : ℚ → Option ValorNum) (puntos : ℕ) (umbral : ℚ)
    (I : ℚ × ℚ) : Except String (Option (ℚ × ℚ) × Bool × Bool) :=
  match denLam o with
  | .error e => .error e
  | .ok df? => .ok (pasoIntervaloOk f df? puntos umbral I)

/-- The sampling loop over all intervals, accumulating `valores` and the two
unboundedness flags (lines 151-194).  An exception in any iteration aborts
the loop (propagating to the outer `except`). -/
def muestreoLoop (o : RecOracle) (f : ℚ → Option ValorNum) (puntos : ℕ) (umbral : ℚ) :
    List (ℚ × ℚ) → Except String (List (ℚ × ℚ) × Bool × Bool)
  | [] => .ok ([], false, false)
  | I :: resto =>
      match pasoIntervalo o f puntos umbral I with
      | .error e => .error e
      | .ok (r?, p, n) =>
          match muestreoLoop o f puntos umbral resto with
          | .error e => .error e
          | .ok (vs, ps, ns) =>
              .ok ((match r? with
                    | some par => par :: vs
                    | none => vs), p || ps, n || ns)

/-- Result record of `calcular_recorrido` (dataclass `RangoResultado`). -/
structure RangoResultado where
  conjunto : SymSet
  metodo : String
  detalle : Option String
  deriving DecidableEq

/-- Lines 151-211 of logica.py: the numeric sampling fallback, from the loop
to the final interval construction with the possible infinities, including
the catch-all that converts any exception into an empty "muestreo" result. -/
def muestreoResultado (o : RecOracle) (f : ℚ → Option ValorNum)
    (intervalos : List (ℚ × ℚ)) (puntos : ℕ) (umbral : ℚ) : RangoResultado :=
  match muestreoLoop o f puntos umbral intervalos with
  | .error e => ⟨.vacio, "muestreo", some ("Error muestreo: " ++ e)⟩
  | .ok (valores, ipos, ineg) =>
      match valores with
      | [] => ⟨.vacio, "muestreo", some ("No se pudo muestrear el dominio")⟩
      | _ :: _ =>
          let vmin := minimoLista (valores.map (fun v => v.1))
          let vmax := maximoLista (valores.map (fun v => v.2))
          ⟨.intervalo (if ineg = true then .negInf else .fin vmin)
              (if ipos = true then .posInf else .fin vmax),
            "muestreo", some ("muestras=" ++ toString puntos)⟩

/-- Lines 140-147: the default sampling intervals — base `[-10, 10]`, plus
far intervals when the domain is all of `S.Reals`. -/
def intervalosDefecto (dominio : SymSet) : List (ℚ × ℚ) :=
  (-10, 10) :: (if dominio = SymSet.reals then [(-100, -10), (10, 100)] else [])

/-- Lines 138-211 of logica.py: the whole sampling fallback of
`calcular_recorrido`, from the lambdify of the expression (whose exception,
like every other in the block, is converted into an empty "muestreo"
result) through the interval construction and sampling. -/
def recorridoFallback (o : RecOracle) (dominio : SymSet)
    (mi0 : Option (List (ℚ × ℚ))) (puntos : ℕ) (umbral : ℚ) : RangoResultado :=
  match o.lamF with
  | .error e => ⟨.vacio, "muestreo", some ("Error muestreo: " ++ e)⟩
  | .ok f =>
      let intervalos :=
        match mi0 with
        | some l => l
        | none => intervalosDefecto dominio
      muestreoResultado o f intervalos puntos umbral

/-- `calcular_recorrido(expr, var, dominio, muestreo_intervalos,
puntos_por_intervalo, umbral_infinito)` of logica.py (lines 105-211). -/
def calcular_recorrido (o : RecOracle) (dominio0 : Option SymSet)
    (mi0 : Option (List (ℚ × ℚ))) (puntos : ℕ) (umbral : ℚ) : RangoResultado :=
  let dominio :=
    match dominio0 with
    | some d => d
    | none => calcular_dominio o.domO
  if o.rangoDisponible = true then
    match o.rangoSimb with
    | .ok fr =>
        if fr = SymSet.vacio then recorridoFallback o dominio mi0 puntos umbral
        else ⟨fr, "simbolico", none⟩
    | .error _ => recorridoFallback o dominio mi0 puntos umbral
  else recorridoFallback o dominio mi0 puntos umbral

/-- Oracle for the SymPy calls `calcular_intersecciones` makes. -/
structure InterOracle where
  /-- `solveset(expr, x, domain=S.Reals)` -/
  resolver1 : Except String SymSet
  /-- `solveset_real(expr, x)` (the retry) -/
  resolver2 : Except String SymSet
  /-- `expr.subs(x, 0)` -/
  valorEnCero : Except String SymExpr

/-- `calcular_intersecciones(expr, var)` of logica.py (lines 214-243). -/
def calcular_intersecciones (o : InterOracle) : SymSet × Option SymExpr :=
  let xInter :=
    match o.resolver1 with
    | .ok s => s
    | .error _ =>
        match o.resolver2 with
        | .ok s => s
        | .error _ => .vacio
  let yInter :=
    match o.valorEnCero with
    | .ok v => if v.isReal = some true then some v else none
    | .error _ => none
  (xInter, yInter)

/-! ## Spec-variant of the per-interval recording, for claim C5

The spec says the recorded per-interval `(min, max)` is taken "among the
finite values that are below the infinity threshold in absolute value".
The following definitions follow the spec's words (not the source), to be
compared with the source-derived `pasoIntervaloOk` above, which takes the
`(min, max)` over all finite values. -/

/-- Spec-worded per-interval step: flags over the surviving finite values,
but the recorded `(min, max)` taken only among the sub-threshold ones
(`|v| ≤ umbral`); nothing is recorded when no such value exists. -/
def pasoIntervaloSegunSpec (f : ℚ → Option ValorNum) (df? : Option (ℚ → Option ValorNum))
    (puntos : ℕ) (umbral : ℚ) (I : ℚ × ℚ) : Option (ℚ × ℚ) × Bool × Bool :=
  let fv := finitosIntervalo f df? puntos I
  let sub := fv.filter (fun q => decide (|q| ≤ umbral))
  ((match sub with
    | [] => none
    | _ :: _ => some (minimoLista sub, maximoLista sub)),
    fv.any (fun q => decide (umbral < q)),
    fv.any (fun q => decide (q < -umbral)))

/-- Spec-worded sampling loop (same shape as `muestreoLoop`, recording per
`pasoIntervaloSegunSpec`). -/
def muestreoLoopSegunSpec (o : RecOracle) (f : ℚ → Option ValorNum) (puntos : ℕ)
    (umbral : ℚ) : List (ℚ × ℚ) → Except String (List (ℚ × ℚ) × Bool × Bool)
  | [] => .ok ([], false, false)
  | I :: resto =>
      match denLam o with
      | .error e => .error e
      | .ok df? =>
          match muestreoLoopSegunSpec o f puntos umbral resto with
          | .error e => .error e
          | .ok (vs, ps, ns) =>
              match pasoIntervaloSegunSpec f df? puntos umbral I with
              | (r?, p, n) =>
                  .ok ((match r? with
                        | some par => par :: vs
                        | none => vs), p || ps, n || ns)

/-- Spec-worded sampling fallback: like `muestreoResultado` but recording
per-interval pairs among sub-threshold values only, as claim C5 states. -/
def muestreoResultadoSegunSpec (o : RecOracle) (f : ℚ → Option ValorNum)
    (intervalos : List (ℚ × ℚ)) (puntos : ℕ) (umbral : ℚ) : RangoResultado :=
  match muestreoLoopSegunSpec o f puntos umbral intervalos with
  | .error e => ⟨.vacio, "muestreo", some ("Error muestreo: " ++ e)⟩
  | .ok (valores, ipos, ineg) =>
      match valores with
      | [] => ⟨.vacio, "muestreo", some ("No se pudo muestrear el dominio")⟩
      | _ :: _ =>
          let vmin := minimoLista (valores.map (fun v => v.1))
          let vmax := maximoLista (valores.map (fun v => v.2))
          ⟨.intervalo (if ineg = true then .negInf else .fin vmin)
              (if ipos = true then .posInf else .fin vmax),
            "muestreo", some ("muestras=" ++ toString puntos)⟩

/-! ## Auxiliary pure forms and concrete inputs used by the theorems -/

/-- The sampling loop with the denominator lambdify already resolved
(pure form used to characterize `muestreoLoop`). -/
def loopPuro (f : ℚ → Option ValorNum) (df? : Option (ℚ → Option ValorNum))
    (puntos : ℕ) (umbral : ℚ) : List (ℚ × ℚ) → List (ℚ × ℚ) × Bool × Bool
  | [] => ([], false, false)
  | I :: resto =>
      let t := pasoIntervaloOk f df? puntos umbral I
      let r := loopPuro f df? puntos umbral resto
      ((match t.1 with
        | some par => par :: r.1
        | none => r.1), t.2.1 || r.2.1, t.2.2 || r.2.2)

/-- All finite surviving sample values across the interval list. -/
def todosFinitos (f : ℚ → Option ValorNum) (df? : Option (ℚ → Option ValorNum))
    (puntos : ℕ) (intervalos : List (ℚ × ℚ)) : List ℚ :=
  (intervalos.map (finitosIntervalo f df? puntos)).flatten

/-- Order on interval endpoints: `-oo ≤ fin q ≤ oo`. -/
def extLe (a b : Extremo) : Bool :=
  match a, b with
  | .negInf, _ => true
  | _, .posInf => true
  | .fin p, .fin q => decide (p ≤ q)
  | _, _ => false

/-- The set `s2` is an interval strictly inside the interval `s1`. -/
def estrictamenteDentro (s2 s1 : SymSet) : Prop :=
  ∃ l2 h2 l1 h1, s2 = SymSet.intervalo l2 h2 ∧ s1 = SymSet.intervalo l1 h1 ∧
    extLe l1 l2 = true ∧ extLe h2 h1 = true ∧ (l2, h2) ≠ (l1, h1)

/-- Claim C5 as stated: the source's sampling fallback agrees with the
spec-worded recording (per-interval extrema among sub-threshold values). -/
def reclamoC5 : Prop :=
  ∀ (o : RecOracle) (f : ℚ → Option ValorNum) (intervalos : List (ℚ × ℚ))
    (puntos : ℕ) (umbral : ℚ),
    muestreoResultado o f intervalos puntos umbral =
      muestreoResultadoSegunSpec o f intervalos puntos umbral

/-- Claim C6 as stated: on equal remaining inputs, a larger sample density
never yields a strictly narrower interval from the sampling fallback. -/
def reclamoC6 : Prop :=
  ∀ (o : RecOracle) (f : ℚ → Option ValorNum) (intervalos : List (ℚ × ℚ))
    (umbral : ℚ) (n1 n2 : ℕ), n1 ≤ n2 →
    ¬ estrictamenteDentro (muestreoResultado o f intervalos n2 umbral).conjunto
        (muestreoResultado o f intervalos n1 umbral).conjunto

/-- Exactly one of three propositions holds. -/
def exactamenteUno (a b c : Prop) : Prop :=
  (a ∧ ¬ b ∧ ¬ c) ∨ (¬ a ∧ b ∧ ¬ c) ∨ (¬ a ∧ ¬ b ∧ c)

/-- The result invariants of claim C4, relative to the step list `ps` the
evaluation started from: exactly one terminal outcome, a nonempty trace,
and the trace extends `ps` (append-only). -/
def propsResultado (r : EvaluacionResultado) (ps : List String) : Prop :=
  exactamenteUno (r.exacto.isSome = true) (r.fuera_de_dominio = true) (r.error.isSome = true) ∧
    r.pasos ≠ [] ∧ ∃ suf, r.pasos = ps ++ suf

/-- A trivial domain oracle used to build concrete `RecOracle` values. -/
def domOracleEj : DomOracle :=
  ⟨Except.ok SymSet.reals, Except.ok SymSet.vacio⟩

/-- Sample evaluator for the C5 counterexample: every value is finite and
lies below `-umbral` for `umbral = 10^6`. -/
def fEjC5 : ℚ → Option ValorNum :=
  fun q => some (.fin (-2000000 - q))

/-- Concrete range oracle for the C5 counterexample (denominator is 1,
symbolic stage unavailable). -/
def oraculoC5 : RecOracle :=
  ⟨domOracleEj, false, Except.error ("no disponible"),
    Except.ok fEjC5, true, Except.ok (fun _ => none)⟩

/-- Concrete range oracle whose symbolic stage succeeds with a non-empty
union (for exercising the "simbolico" tagging). -/
def oraculoSimbEj : RecOracle :=
  ⟨domOracleEj, true, Except.ok (SymSet.unionConj 1),
    Except.ok (fun _ => none), true, Except.ok (fun _ => none)⟩

/-- Concrete range oracle whose expression lambdify raises (for exercising
the catch-all of the sampling fallback). -/
def oraculoLamFalla : RecOracle :=
  ⟨domOracleEj, false, Except.error ("no disponible"),
    Except.error ("lambdify fallo"), true, Except.ok (fun _ => none)⟩

/-- Sample evaluator for the C6 counterexample: a narrow spike at `1/2`
that a 3-point grid on `[0,1]` hits and a 4-point grid misses. -/
def fEjC6 : ℚ → Option ValorNum :=
  fun q => if q = 1/2 then some (.fin 100) else some (.fin 0)

/-- Concrete range oracle for the C6 counterexample. -/
def oraculoC6 : RecOracle :=
  ⟨domOracleEj, false, Except.error ("no disponible"),
    Except.ok fEjC6, true, Except.ok (fun _ => none)⟩

theorem foldlMin_min (l : List ℚ) : ∀ a b, l.foldl min (min a b) = min a (l.foldl min b) := by
  induction l with
  | nil => intro a b; simp
  | cons c t ih =>
      intro a b
      simp only [List.foldl_cons]
      rw [min_assoc, ih]

theorem foldlMax_max (l : List ℚ) : ∀ a b, l.foldl max (max a b) = max a (l.foldl max b) := by
  induction l with
  | nil => intro a b; simp
  | cons c t ih =>
      intro a b
      simp only [List.foldl_cons]
      rw [max_assoc, ih]

theorem foldlMin_le_init (l : List ℚ) : ∀ a, l.foldl min a ≤ a := by
  induction l with
  | nil => intro a; simp
  | cons c t ih =>
      intro a
      simp only [List.foldl_cons]
      exact le_trans (ih (min a c)) (min_le_left a c)

theorem foldlMax_ge_init (l : List ℚ) : ∀ a, a ≤ l.foldl max a := by
  induction l with
  | nil => intro a; simp
  | cons c t ih =>
      intro a
      simp only [List.foldl_cons]
      exact le_trans (le_max_left a c) (ih (max a c))

theorem foldlMin_le_mem (l : List ℚ) : ∀ a v, v ∈ l → l.foldl min a ≤ v := by
  induction l with
  | nil => intro a v hv; cases hv
  | cons c t ih =>
      intro a v hv
      simp only [List.foldl_cons]
      rcases List.mem_cons.mp hv with h | h
      · subst h
        exact le_trans (foldlMin_le_init t (min a v)) (min_le_right a v)
      · exact ih (min a c) v h

theorem foldlMax_ge_mem (l : List ℚ) : ∀ a v, v ∈ l → v ≤ l.foldl max a := by
  induction l with
  | nil => intro a v hv; cases hv
  | cons c t ih =>
      intro a v hv
      simp only [List.foldl_cons]
      rcases List.mem_cons.mp hv with h | h
      · subst h
        exact le_trans (le_max_right a v) (foldlMax_ge_init t (max a v))
      · exact ih (max a c) v h

theorem foldlMin_cases (l : List ℚ) : ∀ a, l.foldl min a = a ∨ l.foldl min a ∈ l := by
  induction l with
  | nil => intro a; left; rfl
  | cons c t ih =>
      intro a
      simp only [List.foldl_cons]
      rcases ih (min a c) with h | h
      · rcases min_choice a c with hm | hm
        · left; rw [h, hm]
        · right; rw [h, hm]; exact List.mem_cons_self c t
      · right; exact List.mem_cons_of_mem c h

theorem foldlMax_cases (l : List ℚ) : ∀ a, l.foldl max a = a ∨ l.foldl max a ∈ l := by
  induction l with
  | nil => intro a; left; rfl
  | cons c t ih =>
      intro a
      simp only [List.foldl_cons]
      rcases ih (max a c) with h | h
      · rcases max_choice a c with hm | hm
        · left; rw [h, hm]
        · right; rw [h, hm]; exact List.mem_cons_self c t
      · right; exact List.mem_cons_of_mem c h

theorem minimoLista_le (l : List ℚ) (v : ℚ) (hv : v ∈ l) : minimoLista l ≤ v := by
  cases l with
  | nil => cases hv
  | cons a r =>
      rcases List.mem_cons.mp hv with h | h
      · subst h; exact foldlMin_le_init r v
      · exact foldlMin_le_mem r a v h

theorem le_maximoLista (l : List ℚ) (v : ℚ) (hv : v ∈ l) : v ≤ maximoLista l := by
  cases l with
  | nil => cases hv
  | cons a r =>
      rcases List.mem_cons.mp hv with h | h
      · subst h; exact foldlMax_ge_init r v
      · exact foldlMax_ge_mem r a v h

theorem minimoLista_mem (l : List ℚ) (hl : l ≠ []) : minimoLista l ∈ l := by
  cases l with
  | nil => exact absurd rfl hl
  | cons a r =>
      rcases foldlMin_cases r a with h | h
      · rw [minimoLista, h]; exact List.mem_cons_self a r
      · rw [minimoLista]; exact List.mem_cons_of_mem a h

theorem maximoLista_mem (l : List ℚ) (hl : l ≠ []) : maximoLista l ∈ l := by
  cases l with
  | nil => exact absurd rfl hl
  | cons a r =>
      rcases foldlMax_cases r a with h | h
      · rw [maximoLista, h]; exact List.mem_cons_self a r
      · rw [maximoLista]; exact List.mem_cons_of_mem a h

theorem minimoLista_append (l1 l2 : List ℚ) (h1 : l1 ≠ []) (h2 : l2 ≠ []) :
    minimoLista (l1 ++ l2) = min (minimoLista l1) (minimoLista l2) := by
  cases l1 with
  | nil => exact absurd rfl h1
  | cons a t =>
      cases l2 with
      | nil => exact absurd rfl h2
      | cons b t2 =>
          show ((t ++ b :: t2).foldl min a) = min (t.foldl min a) (minimoLista (b :: t2))
          rw [List.foldl_append]
          show (t2.foldl min (min (t.foldl min a) b)) = _
          rw [foldlMin_min]
          rfl

theorem maximoLista_append (l1 l2 : List ℚ) (h1 : l1 ≠ []) (h2 : l2 ≠ []) :
    maximoLista (l1 ++ l2) = max (maximoLista l1) (maximoLista l2) := by
  cases l1 with
  | nil => exact absurd rfl h1
  | cons a t =>
      cases l2 with
      | nil => exact absurd rfl h2
      | cons b t2 =>
          show ((t ++ b :: t2).foldl max a) = max (t.foldl max a) (maximoLista (b :: t2))
          rw [List.foldl_append]
          show (t2.foldl max (max (t.foldl max a) b)) = _
          rw [foldlMax_max]
          rfl

/-! ## Helper lemmas: the sampling loop -/

theorem muestreoLoop_eq_loopPuro (o : RecOracle) (f : ℚ → Option ValorNum)
    (puntos : ℕ) (umbral : ℚ) (df? : Option (ℚ → Option ValorNum))
    (h : denLam o = .ok df?) (L : List (ℚ × ℚ)) :
    muestreoLoop o f puntos umbral L = .ok (loopPuro f df? puntos umbral L) := by
  induction L with
  | nil => rfl
  | cons I resto ih =>
      rw [muestreoLoop, pasoIntervalo, h, ih, loopPuro]

theorem todosFinitos_cons (f : ℚ → Option ValorNum) (df? : Option (ℚ → Option ValorNum))
    (puntos : ℕ) (I : ℚ × ℚ) (L : List (ℚ × ℚ)) :
    todosFinitos f df? puntos (I :: L) =
      finitosIntervalo f df? puntos I ++ todosFinitos f df? puntos L := by
  simp [todosFinitos]

theorem loopPuro_valores_nil (f : ℚ → Option ValorNum) (df? : Option (ℚ → Option ValorNum))
    (puntos : ℕ) (umbral : ℚ) (L : List (ℚ × ℚ)) :
    (loopPuro f df? puntos umbral L).1 = [] ↔ todosFinitos f df? puntos L = [] := by
  induction L with
  | nil => simp [loopPuro, todosFinitos]
  | cons I resto ih =>
      rw [loopPuro, todosFinitos_cons]
      cases hfv : finitosIntervalo f df? puntos I with
      | nil => simpa [pasoIntervaloOk, hfv] using ih
      | cons a t => simp [pasoIntervaloOk, hfv]

theorem loopPuro_flag_pos (f : ℚ → Option ValorNum) (df? : Option (ℚ → Option ValorNum))
    (puntos : ℕ) (umbral : ℚ) (L : List (ℚ × ℚ)) :
    (loopPuro f df? puntos umbral L).2.1 =
      (todosFinitos f df? puntos L).any (fun q => decide (umbral < q)) := by
  induction L with
  | nil => simp [loopPuro, todosFinitos]
  | cons I resto ih =>
      rw [loopPuro, todosFinitos_cons]
      cases hfv : finitosIntervalo f df? puntos I with
      | nil => simpa [pasoIntervaloOk, hfv] using ih
      | cons a t => simp [pasoIntervaloOk, hfv, ih, List.any_append, Bool.or_assoc]

theorem loopPuro_flag_neg (f : ℚ → Option ValorNum) (df? : Option (ℚ → Option ValorNum))
    (puntos : ℕ) (umbral : ℚ) (L : List (ℚ × ℚ)) :
    (loopPuro f df? puntos umbral L).2.2 =
      (todosFinitos f df? puntos L).any (fun q => decide (q < -umbral)) := by
  induction L with
  | nil => simp [loopPuro, todosFinitos]
  | cons I resto ih =>
      rw [loopPuro, todosFinitos_cons]
      cases hfv : finitosIntervalo f df? puntos I with
      | nil => simpa [pasoIntervaloOk, hfv] using ih
      | cons a t => simp [pasoIntervaloOk, hfv, ih, List.any_append, Bool.or_assoc]

theorem loopPuro_min (f : ℚ → Option ValorNum) (df? : Option (ℚ → Option ValorNum))
    (puntos : ℕ) (umbral : ℚ) (L : List (ℚ × ℚ))
    (h : (loopPuro f df? puntos umbral L).1 ≠ []) :
    minimoLista ((loopPuro f df? puntos umbral L).1.map (fun v => v.1)) =
      minimoLista (todosFinitos f df? puntos L) := by
  induction L with
  | nil => exact absurd rfl h
  | cons I resto ih =>
      rw [loopPuro] at h ⊢
      rw [todosFinitos_cons]
      cases hfv : finitosIntervalo f df? puntos I with
      | nil =>
          simp only [pasoIntervaloOk, hfv] at h ⊢
          simpa using ih (by simpa using h)
      | cons a t =>
          simp only [pasoIntervaloOk, hfv]
          cases hrest : (loopPuro f df? puntos umbral resto).1 with
          | nil =>
              have htodos : todosFinitos f df? puntos resto = [] :=
                (loopPuro_valores_nil f df? puntos umbral resto).mp hrest
              simp only [hrest, htodos, List.append_nil, List.map_cons, List.map_nil]
              rfl
          | cons b t2 =>
              have hne : (loopPuro f df? puntos umbral resto).1 ≠ [] := by
                rw [hrest]; exact List.cons_ne_nil b t2
              have htodos : todosFinitos f df? puntos resto ≠ [] := fun hh =>
                hne ((loopPuro_valores_nil f df? puntos umbral resto).mpr hh)
              have ihv := ih hne
              rw [hrest] at ihv
              have happ := minimoLista_append (finitosIntervalo f df? puntos I)
                (todosFinitos f df? puntos resto) (by rw [hfv]; exact List.cons_ne_nil a t) htodos
              rw [← hfv, happ, ← ihv]
              have hsplit := minimoLista_append [minimoLista (finitosIntervalo f df? puntos I)]
                (((b :: t2).map (fun v => v.1))) (List.cons_ne_nil _ _) (by simp)
              simpa using hsplit

theorem loopPuro_max (f : ℚ → Option ValorNum) (df? : Option (ℚ → Option ValorNum))
    (puntos : ℕ) (umbral : ℚ) (L : List (ℚ × ℚ))
    (h : (loopPuro f df? puntos umbral L).1 ≠ []) :
    maximoLista ((loopPuro f df? puntos umbral L).1.map (fun v => v.2)) =
      maximoLista (todosFinitos f df? puntos L) := by
  induction L with
  | nil => exact absurd rfl h
  | cons I resto ih =>
      rw [loopPuro] at h ⊢
      rw [todosFinitos_cons]
      cases hfv : finitosIntervalo f df? puntos I with
      | nil =>
          simp only [pasoIntervaloOk, hfv] at h ⊢
          simpa using ih (by simpa using h)
      | cons a t =>
          simp only [pasoIntervaloOk, hfv]
          cases hrest : (loopPuro f df? puntos umbral resto).1 with
          | nil =>
              have htodos : todosFinitos f df? puntos resto = [] :=
                (loopPuro_valores_nil f df? puntos umbral resto).mp hrest
              simp only [hrest, htodos, List.append_nil, List.map_cons, List.map_nil]
              rfl
          | cons b t2 =>
              have hne : (loopPuro f df? puntos umbral resto).1 ≠ [] := by
                rw [hrest]; exact List.cons_ne_nil b t2
              have htodos : todosFinitos f df? puntos resto ≠ [] := fun hh =>
                hne ((loopPuro_valores_nil f df? puntos umbral resto).mpr hh)
              have ihv := ih hne
              rw [hrest] at ihv
              have happ := maximoLista_append (finitosIntervalo f df? puntos I)
                (todosFinitos f df? puntos resto) (by rw [hfv]; exact List.cons_ne_nil a t) htodos
              rw [← hfv, happ, ← ihv]
              have hsplit := maximoLista_append [maximoLista (finitosIntervalo f df? puntos I)]
                (((b :: t2).map (fun v => v.2))) (List.cons_ne_nil _ _) (by simp)
              simpa using hsplit

/-- Full characterization of the sampling fallback in terms of the finite
surviving sample values: empty result when no interval yields a finite
value; otherwise a single interval whose endpoints are the overall extrema
of all finite values, opened to ±∞ by the threshold flags. -/
theorem muestreoResultado_car (o : RecOracle) (f : ℚ → Option ValorNum)
    (intervalos : List (ℚ × ℚ)) (puntos : ℕ) (umbral : ℚ)
    (df? : Option (ℚ → Option ValorNum)) (h : denLam o = .ok df?) :
    (todosFinitos f df? puntos intervalos = [] →
      muestreoResultado o f intervalos puntos umbral =
        ⟨SymSet.vacio, "muestreo", some ("No se pudo muestrear el dominio")⟩) ∧
    (todosFinitos f df? puntos intervalos ≠ [] →
      muestreoResultado o f intervalos puntos umbral =
        ⟨SymSet.intervalo
            (if (todosFinitos f df? puntos intervalos).any (fun q => decide (q < -umbral)) = true
             then Extremo.negInf
             else Extremo.fin (minimoLista (todosFinitos f df? puntos intervalos)))
            (if (todosFinitos f df? puntos intervalos).any (fun q => decide (umbral < q)) = true
             then Extremo.posInf
             else Extremo.fin (maximoLista (todosFinitos f df? puntos intervalos))),
          "muestreo", some ("muestras=" ++ toString puntos)⟩) := by
  constructor
  · intro hnil
    rw [muestreoResultado, muestreoLoop_eq_loopPuro o f puntos umbral df? h intervalos]
    have hv : (loopPuro f df? puntos umbral intervalos).1 = [] :=
      (loopPuro_valores_nil f df? puntos umbral intervalos).mpr hnil
    rcases hl : loopPuro f df? puntos umbral intervalos with ⟨vals, p, n⟩
    rw [hl] at hv
    simp only at hv
    subst hv
    rfl
  · intro hne
    rw [muestreoResultado, muestreoLoop_eq_loopPuro o f puntos umbral df? h intervalos]
    have hv : (loopPuro f df? puntos umbral intervalos).1 ≠ [] := fun hh =>
      hne ((loopPuro_valores_nil f df? puntos umbral intervalos).mp hh)
    have hmin := loopPuro_min f df? puntos umbral intervalos hv
    have hmax := loopPuro_max f df? puntos umbral intervalos hv
    have hpos := loopPuro_flag_pos f df? puntos umbral intervalos
    have hneg := loopPuro_flag_neg f df? puntos umbral intervalos
    rcases hl : loopPuro f df? puntos umbral intervalos with ⟨vals, p, n⟩
    rw [hl] at hv hmin hmax hpos hneg
    simp only at hv hmin hmax hpos hneg
    cases vals with
    | nil => exact absurd rfl hv
    | cons v vs => simp only [← hmin, ← hmax, hpos, hneg]

/-! ## Helper lemmas: grid refinement and result shapes -/

theorem mascaraDen_mem_of_mem (df : ℚ → Option ValorNum) (xs1 xs2 : List ℚ)
    (hsub : ∀ x, x ∈ xs1 → x ∈ xs2) :
    ∀ v, v ∈ mascaraDen df xs1 → v ∈ mascaraDen df xs2 := by
  intro v hv
  rw [mascaraDen] at hv ⊢
  by_cases h2 : xs2.all (fun q => (df q).isSome) = true
  · have h1 : xs1.all (fun q => (df q).isSome) = true := by
      rw [List.all_eq_true] at h2 ⊢
      intro x hx
      exact h2 x (hsub x hx)
    rw [if_pos h1] at hv
    rw [if_pos h2]
    rw [List.mem_filter] at hv ⊢
    exact ⟨hsub v hv.1, hv.2⟩
  · rw [if_neg h2]
    by_cases h1 : xs1.all (fun q => (df q).isSome) = true
    · rw [if_pos h1] at hv
      exact hsub v (List.mem_filter.mp hv).1
    · rw [if_neg h1] at hv
      exact hsub v hv

theorem finitosIntervalo_mem_of_mem (f : ℚ → Option ValorNum)
    (df? : Option (ℚ → Option ValorNum)) (n1 n2 : ℕ) (I : ℚ × ℚ)
    (hgrid : ∀ p, p ∈ linspace I.1 I.2 n1 → p ∈ linspace I.1 I.2 n2) :
    ∀ v, v ∈ finitosIntervalo f df? n1 I → v ∈ finitosIntervalo f df? n2 I := by
  intro v hv
  simp only [finitosIntervalo, finitos, valoresMuestra, List.mem_filterMap] at hv ⊢
  obtain ⟨w, ⟨x, hx, hfx⟩, hw⟩ := hv
  refine ⟨w, ⟨x, ?_, hfx⟩, hw⟩
  cases df? with
  | none => exact hgrid x hx
  | some df => exact mascaraDen_mem_of_mem df _ _ hgrid x hx

theorem todosFinitos_mem_of_mem (f : ℚ → Option ValorNum)
    (df? : Option (ℚ → Option ValorNum)) (n1 n2 : ℕ) (intervalos : List (ℚ × ℚ))
    (hgrid : ∀ I, I ∈ intervalos → ∀ p, p ∈ linspace I.1 I.2 n1 → p ∈ linspace I.1 I.2 n2) :
    ∀ v, v ∈ todosFinitos f df? n1 intervalos → v ∈ todosFinitos f df? n2 intervalos := by
  intro v hv
  rw [todosFinitos, List.mem_flatten] at hv ⊢
  obtain ⟨l, hl, hvl⟩ := hv
  rw [List.mem_map] at hl
  obtain ⟨I, hI, rfl⟩ := hl
  refine ⟨finitosIntervalo f df? n2 I, ?_, ?_⟩
  · rw [List.mem_map]; exact ⟨I, hI, rfl⟩
  · exact finitosIntervalo_mem_of_mem f df? n1 n2 I (hgrid I hI) v hvl

theorem muestreoResultado_forma (o : RecOracle) (f : ℚ → Option ValorNum)
    (intervalos : List (ℚ × ℚ)) (puntos : ℕ) (umbral : ℚ) :
    (muestreoResultado o f intervalos puntos umbral).metodo = "muestreo" ∧
      ((muestreoResultado o f intervalos puntos umbral).conjunto = SymSet.vacio ∨
        ∃ a b, (muestreoResultado o f intervalos puntos umbral).conjunto = SymSet.intervalo a b) := by
  rw [muestreoResultado]
  rcases muestreoLoop o f puntos umbral intervalos with e | ⟨vals, p, n⟩
  · exact ⟨rfl, Or.inl rfl⟩
  · cases vals with
    | nil => exact ⟨rfl, Or.inl rfl⟩
    | cons v vs => exact ⟨rfl, Or.inr ⟨_, _, rfl⟩⟩

/-! ## Helper lemmas: the stepwise evaluator -/

theorem propsResultado_mono (r : EvaluacionResultado) (p0 mid : List String)
    (h : propsResultado r (p0 ++ mid)) : propsResultado r p0 := by
  obtain ⟨h1, h2, suf, hs⟩ := h
  exact ⟨h1, h2, mid ++ suf, by rw [hs, List.append_assoc]⟩

theorem sufijoExtiende (ps l m : List String) (h : ∃ suf, l = ps ++ suf) :
    ∃ suf, l ++ m = ps ++ suf := by
  obtain ⟨s, hs⟩ := h
  exact ⟨s ++ m, by rw [hs, List.append_assoc]⟩

theorem propsResultado_de_sufijo (r : EvaluacionResultado) (p0 ps2 : List String)
    (h : ∃ suf, ps2 = p0 ++ suf) (hp : propsResultado r ps2) : propsResultado r p0 := by
  obtain ⟨mid, rfl⟩ := h
  exact propsResultado_mono r p0 mid hp

theorem resultadoError_props (ps : List String) (lx : List (String × String)) (e : String) :
    propsResultado (resultadoError ps lx e) ps := by
  refine ⟨Or.inr (Or.inr ⟨by simp [resultadoError], by simp [resultadoError], by simp [resultadoError]⟩), ?_, ?_⟩
  · simp [resultadoError]
  · exact ⟨_, rfl⟩

theorem ramaBad_props (o : EvalOracle) (x0 : SymExpr) (ul sr : Bool)
    (ps : List String) (lx : List (String × String)) :
    propsResultado (ramaBad o x0 ul sr ps lx) ps := by
  by_cases hul : ul = true
  · cases hl : o.limite with
    | error e =>
        simp only [ramaBad, hl, if_pos hul]
        exact ⟨Or.inr (Or.inl ⟨by simp, rfl, by simp⟩), by simp,
          sufijoExtiende _ _ _ (sufijoExtiende _ _ _ ⟨[], by simp⟩)⟩
    | ok lim =>
        by_cases hc : lim.isBad = false ∧ (sr = false ∨ lim.isReal = some true)
        · cases hn : (if lim.isNumber = true then o.limiteFloat.map some else Except.ok none) with
          | error e =>
              simp only [ramaBad, hl, if_pos hul, if_pos hc, hn]
              exact propsResultado_mono _ ps _
                (by rw [← List.append_assoc]; exact resultadoError_props _ _ e)
          | ok dec =>
              simp only [ramaBad, hl, if_pos hul, if_pos hc, hn]
              refine ⟨Or.inl ⟨by simp, by simp, by simp⟩, by simp, ?_⟩
              exact sufijoExtiende _ _ _ (sufijoExtiende _ _ _
                (sufijoExtiende _ _ _ (sufijoExtiende _ _ _ ⟨[], by simp⟩)))
        · simp only [ramaBad, hl, if_pos hul, if_neg hc]
          exact ⟨Or.inr (Or.inl ⟨by simp, rfl, by simp⟩), by simp,
            sufijoExtiende _ _ _ (sufijoExtiende _ _ _ (sufijoExtiende _ _ _ ⟨[], by simp⟩))⟩
  · simp only [ramaBad, if_neg hul]
    exact ⟨Or.inr (Or.inl ⟨by simp, rfl, by simp⟩), by simp,
      sufijoExtiende _ _ _ ⟨[], by simp⟩⟩

theorem ramaOk_props (o : EvalOracle) (sr : Bool) (esub : SymExpr)
    (ps : List String) (lx : List (String × String)) :
    propsResultado (ramaOk o sr esub ps lx) ps := by
  cases hsp : o.simplifyPost with
  | error e =>
      simp only [ramaOk, hsp]
      exact resultadoError_props ps lx e
  | ok esimpl =>
      by_cases hc : sr = true ∧ esimpl.isReal = some false
      · simp only [ramaOk, hsp, if_pos hc]
        exact ⟨Or.inr (Or.inl ⟨by simp, rfl, by simp⟩), by simp,
          sufijoExtiende _ _ _ (sufijoExtiende _ _ _ ⟨[], by simp⟩)⟩
      · cases hn : (if esimpl.isNumber = true then o.exactoFloat.map some else Except.ok none) with
        | error e =>
            simp only [ramaOk, hsp, if_neg hc, hn]
            exact propsResultado_mono _ ps _
              (by rw [← List.append_assoc]; exact resultadoError_props _ _ e)
        | ok dec =>
            simp only [ramaOk, hsp, if_neg hc, hn]
            refine ⟨Or.inl ⟨by simp, by simp, by simp⟩, ?_, ?_⟩
            · simp
            · exact sufijoExtiende _ _ _ (sufijoExtiende _ _ _
                (sufijoExtiende _ _ _ ⟨[], by simp⟩))

theorem desdePaso3_props (o : EvalOracle) (expr x0 : SymExpr) (ul sa sr : Bool)
    (dominio : Option SymSet) (pasos0 pasos2 : List String) (lx2 : List (String × String))
    (hext : ∃ suf, pasos2 = pasos0 ++ suf) :
    propsResultado (desdePaso3 o expr x0 ul sa sr dominio pasos2 lx2) pasos0 := by
  obtain ⟨mid, hmid⟩ := hext
  subst hmid
  rw [desdePaso3.eq_def]
  cases hsp : (if sa = true then o.simplifyPre else Except.ok (expr, false)) with
  | error e => exact propsResultado_mono _ pasos0 _ (resultadoError_props _ _ e)
  | ok pr =>
      rcases pr with ⟨exprProc, distinto⟩
      cases hsu : o.sustitucion with
      | error e =>
          exact propsResultado_de_sufijo _ pasos0 _
            (sufijoExtiende _ _ _ (sufijoExtiende _ _ _ ⟨mid, rfl⟩))
            (resultadoError_props _ _ e)
      | ok esub =>
          cases hb : esub.isBad with
          | true =>
              simp only [hb, if_true]
              exact propsResultado_de_sufijo _ pasos0 _
                (sufijoExtiende _ _ _ (sufijoExtiende _ _ _ (sufijoExtiende _ _ _ ⟨mid, rfl⟩)))
                (ramaBad_props o x0 ul sr _ _)
          | false =>
              simp only [hb, if_false]
              exact propsResultado_de_sufijo _ pasos0 _
                (sufijoExtiende _ _ _ (sufijoExtiende _ _ _ (sufijoExtiende _ _ _ ⟨mid, rfl⟩)))
                (ramaOk_props o sr esub _ _)

theorem evaluarAux_props (o : EvalOracle) (expr x0 : SymExpr) (var : String) (ndigits : ℕ)
    (dominio0 : Option SymSet) (ul sa sr : Bool) (pasos0 : List String) :
    propsResultado (evaluarAux o expr x0 var ndigits dominio0 ul sa sr pasos0) pasos0 := by
  rw [evaluarAux.eq_def]
  cases dominio0 with
  | some d => exact desdePaso3_props o expr x0 ul sa sr (some d) pasos0 _ _ ⟨_, rfl⟩
  | none =>
      cases o.contDomain with
      | ok d =>
          exact desdePaso3_props o expr x0 ul sa sr (some d) pasos0 _ _
            (sufijoExtiende _ _ _ ⟨_, rfl⟩)
      | error e =>
          exact desdePaso3_props o expr x0 ul sa sr none pasos0 _ _
            (sufijoExtiende _ _ _ ⟨_, rfl⟩)

theorem desdePaso3_alcanzaRamaBad (o : EvalOracle) (expr x0 : SymExpr)
    (ul sa sr : Bool) (dominio : Option SymSet) (pasos2 : List String)
    (lx2 : List (String × String)) (esub : SymExpr)
    (hpre : sa = true → ∃ pr, o.simplifyPre = Except.ok pr)
    (hsub : o.sustitucion = Except.ok esub) (hbad : esub.isBad = true) :
    ∃ ps lx, desdePaso3 o expr x0 ul sa sr dominio pasos2 lx2 = ramaBad o x0 ul sr ps lx := by
  rw [desdePaso3.eq_def]
  cases hsa : sa with
  | true =>
      obtain ⟨pr, hpr⟩ := hpre hsa
      rcases pr with ⟨exprProc, distinto⟩
      simp only [hsa, hpr, hsub, hbad, if_true]
      exact ⟨_, _, rfl⟩
  | false =>
      simp only [hsa, hsub, hbad, if_false, if_true]
      exact ⟨_, _, rfl⟩

theorem evaluarAux_alcanzaRamaBad (o : EvalOracle) (expr x0 : SymExpr) (var : String)
    (ndigits : ℕ) (dominio0 : Option SymSet) (ul sa sr : Bool) (pasos0 : List String)
    (esub : SymExpr)
    (hpre : sa = true → ∃ pr, o.simplifyPre = Except.ok pr)
    (hsub : o.sustitucion = Except.ok esub) (hbad : esub.isBad = true) :
    ∃ ps lx, evaluarAux o expr x0 var ndigits dominio0 ul sa sr pasos0 =
      ramaBad o x0 ul sr ps lx := by
  rw [evaluarAux.eq_def]
  cases dominio0 with
  | some d => exact desdePaso3_alcanzaRamaBad o expr x0 ul sa sr _ _ _ esub hpre hsub hbad
  | none =>
      cases o.contDomain with
      | ok d => exact desdePaso3_alcanzaRamaBad o expr x0 ul sa sr _ _ _ esub hpre hsub hbad
      | error e => exact desdePaso3_alcanzaRamaBad o expr x0 ul sa sr _ _ _ esub hpre hsub hbad

theorem ramaBad_fueraDeDominio (o : EvalOracle) (x0 : SymExpr) (ul sr : Bool)
    (ps : List String) (lx : List (String × String))
    (hcaso : ul = false ∨ (∃ e, o.limite = Except.error e) ∨
      (∃ lim, o.limite = Except.ok lim ∧
        ¬(lim.isBad = false ∧ (sr = false ∨ lim.isReal = some true)))) :
    (ramaBad o x0 ul sr ps lx).fuera_de_dominio = true ∧
    (ramaBad o x0 ul sr ps lx).exacto = none ∧
    (ramaBad o x0 ul sr ps lx).decimal = none ∧
    (ramaBad o x0 ul sr ps lx).error = none := by
  rcases hcaso with hul | ⟨e, he⟩ | ⟨lim, hlim, hc⟩
  · subst hul
    refine ⟨?_, ?_, ?_, ?_⟩ <;> simp [ramaBad]
  · cases hul : ul with
    | true => refine ⟨?_, ?_, ?_, ?_⟩ <;> simp [ramaBad, he]
    | false => refine ⟨?_, ?_, ?_, ?_⟩ <;> simp [ramaBad, hul]
  · cases hul : ul with
    | true => refine ⟨?_, ?_, ?_, ?_⟩ <;> simp [ramaBad, hlim, if_neg hc]
    | false => refine ⟨?_, ?_, ?_, ?_⟩ <;> simp [ramaBad, hul]

/-! ## Claim theorems -/

/-- Claim C3: `calcular_dominio` never raises (it is a total function of its
oracles) and follows the ordered fallback chain: the direct continuity
analysis result when that call succeeds; if it raises, the reals minus the
denominator's real zero-set when that zero-set is a recognized shape
(finite set, interval or union) other than all of the reals; and all reals
only when the zero-set computation raises, when the zero-set is all of the
reals, or when its shape is not recognized. -/
theorem calcular_dominio_c3 (o : DomOracle) :
    (∀ d, o.contDomain = Except.ok d → calcular_dominio o = d) ∧
    (∀ e, o.contDomain = Except.error e →
      (∀ e2, o.cerosDen = Except.error e2 → calcular_dominio o = SymSet.reals) ∧
      (o.cerosDen = Except.ok SymSet.reals → calcular_dominio o = SymSet.reals) ∧
      (∀ z, o.cerosDen = Except.ok z → z ≠ SymSet.reals → esFormaReconocida z = true →
        calcular_dominio o = SymSet.menosReals z) ∧
      (∀ z, o.cerosDen = Except.ok z → z ≠ SymSet.reals → esFormaReconocida z = false →
        calcular_dominio o = SymSet.reals)) := by
  constructor
  · intro d hd
    rw [calcular_dominio, hd]
  · intro e he
    refine ⟨?_, ?_, ?_, ?_⟩
    · intro e2 he2
      rw [calcular_dominio, he, he2]
    · intro hz
      rw [calcular_dominio, he, hz]
      simp
    · intro z hz hzr hzf
      simp [calcular_dominio, he, hz, hzr, hzf]
    · intro z hz hzr hzf
      simp [calcular_dominio, he, hz, hzr, hzf]

/-- Witness for C3 at a concrete oracle: continuity analysis raises and the
denominator zero-set is a finite set, so the fallback excludes it. -/
theorem calcular_dominio_c3_witness :
    calcular_dominio ⟨Except.error ("fallo"), Except.ok (SymSet.conjFinito 7)⟩ =
      SymSet.menosReals (SymSet.conjFinito 7) := by
  have h := (calcular_dominio_c3 ⟨Except.error ("fallo"), Except.ok (SymSet.conjFinito 7)⟩).2
    "fallo" rfl
  exact h.2.2.1 (SymSet.conjFinito 7) rfl (by simp) rfl

/-- Claim C7: `calcular_intersecciones` never raises; the x-root set follows
the chain solveset, solveset_real retry, empty set; the y-value is kept only
when the substitution at zero succeeds and is classified real (`is_real is
True`), and is `None` (with no error) otherwise. -/
theorem calcular_intersecciones_c7 (o : InterOracle) :
    (∀ s, o.resolver1 = Except.ok s → (calcular_intersecciones o).1 = s) ∧
    (∀ e s, o.resolver1 = Except.error e → o.resolver2 = Except.ok s →
      (calcular_intersecciones o).1 = s) ∧
    (∀ e e2, o.resolver1 = Except.error e → o.resolver2 = Except.error e2 →
      (calcular_intersecciones o).1 = SymSet.vacio) ∧
    (∀ v, o.valorEnCero = Except.ok v → v.isReal = some true →
      (calcular_intersecciones o).2 = some v) ∧
    (∀ v, o.valorEnCero = Except.ok v → v.isReal ≠ some true →
      (calcular_intersecciones o).2 = none) ∧
    (∀ e, o.valorEnCero = Except.error e → (calcular_intersecciones o).2 = none) := by
  refine ⟨?_, ?_, ?_, ?_, ?_, ?_⟩
  · intro s hs
    simp [calcular_intersecciones, hs]
  · intro e s he hs
    simp [calcular_intersecciones, he, hs]
  · intro e e2 he he2
    simp [calcular_intersecciones, he, he2]
  · intro v hv hr
    simp [calcular_intersecciones, hv, hr]
  · intro v hv hr
    simp [calcular_intersecciones, hv, if_neg hr]
  · intro e he
    simp [calcular_intersecciones, he]

/-- Witness for C7 at a concrete oracle: first solver raises, the retry
succeeds, and the value at zero is classified real. -/
theorem calcular_intersecciones_c7_witness :
    (calcular_intersecciones
        ⟨Except.error ("fallo"), Except.ok (SymSet.conjFinito 3),
          Except.ok ⟨"-4", false, some true, true⟩⟩).1 = SymSet.conjFinito 3 ∧
    (calcular_intersecciones
        ⟨Except.error ("fallo"), Except.ok (SymSet.conjFinito 3),
          Except.ok ⟨"-4", false, some true, true⟩⟩).2 = some ⟨"-4", false, some true, true⟩ := by
  have h := calcular_intersecciones_c7
    ⟨Except.error ("fallo"), Except.ok (SymSet.conjFinito 3),
      Except.ok ⟨"-4", false, some true, true⟩⟩
  exact ⟨h.2.1 "fallo" (SymSet.conjFinito 3) rfl rfl,
    h.2.2.2.1 ⟨"-4", false, some true, true⟩ rfl rfl⟩

/-- Claim C10: for every non-string input and every string that is empty or
only whitespace, `analizar_funcion` fails with the `ValueError` before any
parsing: the result is the same `ValueError` for every parser, so the
parser is never consulted. -/
theorem analizar_funcion_c10 (parse1 parse2 : String → Except String SymExpr)
    (t : ℕ) (s : String) :
    (analizar_funcion parse1 (EntradaPy.noCadena t) =
      Except.error (ErrorAnalisis.valueError ("expr_str debe ser un string no vacío"))) ∧
    (esVacioTrasStrip s = true →
      analizar_funcion parse1 (EntradaPy.cadena s) =
        Except.error (ErrorAnalisis.valueError ("expr_str debe ser un string no vacío"))) ∧
    (analizar_funcion parse1 (EntradaPy.noCadena t) =
      analizar_funcion parse2 (EntradaPy.noCadena t)) ∧
    (esVacioTrasStrip s = true →
      analizar_funcion parse1 (EntradaPy.cadena s) =
        analizar_funcion parse2 (EntradaPy.cadena s)) := by
  refine ⟨rfl, ?_, rfl, ?_⟩
  · intro hs
    simp [analizar_funcion, hs]
  · intro hs
    simp [analizar_funcion, hs]

/-- Witness for C10: a non-string input and the whitespace string " \t "
both yield the ValueError, for an arbitrary concrete parser. -/
theorem analizar_funcion_c10_witness :
    analizar_funcion (fun s => Except.ok ⟨s, false, none, false⟩) (EntradaPy.noCadena 0) =
      Except.error (ErrorAnalisis.valueError ("expr_str debe ser un string no vacío")) ∧
    analizar_funcion (fun s => Except.ok ⟨s, false, none, false⟩) (EntradaPy.cadena (" \t ")) =
      Except.error (ErrorAnalisis.valueError ("expr_str debe ser un string no vacío")) := by
  have h := analizar_funcion_c10 (fun s => Except.ok ⟨s, false, none, false⟩)
    (fun s => Except.ok ⟨s, false, none, false⟩) 0 (" \t ")
  exact ⟨h.1, h.2.1 (by decide)⟩

theorem recorridoFallback_forma (o : RecOracle) (dominio : SymSet)
    (mi : Option (List (ℚ × ℚ))) (p : ℕ) (u : ℚ) :
    (recorridoFallback o dominio mi p u).metodo = "muestreo" ∧
      ((recorridoFallback o dominio mi p u).conjunto = SymSet.vacio ∨
        ∃ a b, (recorridoFallback o dominio mi p u).conjunto = SymSet.intervalo a b) := by
  cases hf : o.lamF with
  | error e => simp [recorridoFallback, hf]
  | ok f => simp only [recorridoFallback, hf]; exact muestreoResultado_forma o f _ p u

theorem calcular_recorrido_casos (o : RecOracle) (d0 : Option SymSet)
    (mi : Option (List (ℚ × ℚ))) (p : ℕ) (u : ℚ) :
    (calcular_recorrido o d0 mi p u =
        recorridoFallback o
          (match d0 with
           | some d => d
           | none => calcular_dominio o.domO) mi p u ∧
      ¬(o.rangoDisponible = true ∧ ∃ fr, o.rangoSimb = Except.ok fr ∧ fr ≠ SymSet.vacio)) ∨
    (∃ fr, o.rangoDisponible = true ∧ o.rangoSimb = Except.ok fr ∧ fr ≠ SymSet.vacio ∧
      calcular_recorrido o d0 mi p u = ⟨fr, "simbolico", none⟩) := by
  simp only [calcular_recorrido]
  cases hd : o.rangoDisponible with
  | false =>
      left
      constructor
      · simp
      · intro ⟨hdisp, _⟩
        exact Bool.noConfusion hdisp
  | true =>
      cases hs : o.rangoSimb with
      | error e =>
          left
          constructor
          · simp
          · intro ⟨_, fr, hfr, _⟩
            exact Except.noConfusion hfr
      | ok fr =>
          by_cases hfr : fr = SymSet.vacio
          · subst hfr
            left
            constructor
            · simp
            · intro ⟨_, fr2, hfr2, hne⟩
              injection hfr2 with h2
              exact hne h2.symm
          · right
            refine ⟨fr, rfl, rfl, hfr, ?_⟩
            simp [hfr]

/-- Claim C8: the `metodo` field of every `RangoResultado` returned by
`calcular_recorrido` truthfully reflects the producing strategy — it is
"simbolico" exactly when the symbolic `function_range` stage was available,
did not raise, and produced a non-empty set (which is then the returned
set); it is "muestreo" otherwise — and every result tagged "muestreo" is a
single (possibly unbounded, possibly collapsed-to-empty) interval, never a
union of disjoint sets. -/
theorem calcular_recorrido_c8 (o : RecOracle) (d0 : Option SymSet)
    (mi : Option (List (ℚ × ℚ))) (p : ℕ) (u : ℚ) :
    ((calcular_recorrido o d0 mi p u).metodo = "simbolico" ∨
      (calcular_recorrido o d0 mi p u).metodo = "muestreo") ∧
    ((calcular_recorrido o d0 mi p u).metodo = "simbolico" ↔
      (o.rangoDisponible = true ∧ ∃ fr, o.rangoSimb = Except.ok fr ∧ fr ≠ SymSet.vacio ∧
        (calcular_recorrido o d0 mi p u).conjunto = fr)) ∧
    ((calcular_recorrido o d0 mi p u).metodo = "muestreo" →
      (calcular_recorrido o d0 mi p u).conjunto = SymSet.vacio ∨
        ∃ a b, (calcular_recorrido o d0 mi p u).conjunto = SymSet.intervalo a b) := by
  rcases calcular_recorrido_casos o d0 mi p u with ⟨heq, hno⟩ | ⟨fr, hd, hs, hne, heq⟩
  · rw [heq]
    clear heq
    have hforma := recorridoFallback_forma o
      (match d0 with
       | some d => d
       | none => calcular_dominio o.domO) mi p u
    refine ⟨Or.inr hforma.1, ?_, fun _ => hforma.2⟩
    constructor
    · intro hsim
      rw [hforma.1] at hsim
      exact absurd hsim (by decide)
    · intro ⟨hdisp, fr, hfr, hfrne, _⟩
      exact absurd ⟨hdisp, fr, hfr, hfrne⟩ hno
  · rw [heq]
    refine ⟨Or.inl rfl, ?_, ?_⟩
    · constructor
      · intro _
        exact ⟨hd, fr, hs, hne, rfl⟩
      · intro _
        rfl
    · intro hmu
      have hcon : ("simbolico" : String) = "muestreo" := hmu
      exact absurd hcon (by decide)

/-- Witness for C8 at two concrete oracles: one where the symbolic stage
succeeds with a non-empty union set (tagged "simbolico"), one where it is
unavailable so the sampling fallback runs (tagged "muestreo", shape an
interval or the empty set). -/
theorem calcular_recorrido_c8_witness :
    (calcular_recorrido oraculoSimbEj (some SymSet.reals) (some []) 4 1000000).metodo =
      "simbolico" ∧
    ((calcular_recorrido oraculoC5 (some SymSet.reals) (some []) 4 1000000).conjunto =
        SymSet.vacio ∨
      ∃ a b, (calcular_recorrido oraculoC5 (some SymSet.reals) (some []) 4 1000000).conjunto =
        SymSet.intervalo a b) := by
  have h1 := calcular_recorrido_c8 oraculoSimbEj (some SymSet.reals) (some []) 4 1000000
  have h2 := calcular_recorrido_c8 oraculoC5 (some SymSet.reals) (some []) 4 1000000
  refine ⟨h1.2.1.mpr ⟨rfl, SymSet.unionConj 1, rfl, by decide, rfl⟩, h2.2.2 rfl⟩

/-- Claim C9: `calcular_recorrido` is total (the embedded function returns a
`RangoResultado` for every oracle behavior by construction), and an
exception inside the sampling fallback — the lambdify of the expression
raising, or the loop aborting because the denominator lambdify raised —
yields the empty set tagged "muestreo" with a diagnostic in `detalle`. -/
theorem calcular_recorrido_c9 (o : RecOracle) (d0 : Option SymSet)
    (mi : Option (List (ℚ × ℚ))) (p : ℕ) (u : ℚ)
    (hsim : o.rangoDisponible = false ∨ (∃ e2, o.rangoSimb = Except.error e2) ∨
      o.rangoSimb = Except.ok SymSet.vacio) :
    (∀ e, o.lamF = Except.error e →
      calcular_recorrido o d0 mi p u =
        ⟨SymSet.vacio, "muestreo", some ("Error muestreo: " ++ e)⟩) ∧
    (∀ f intervalos e, o.lamF = Except.ok f →
      muestreoLoop o f p u intervalos = Except.error e →
      muestreoResultado o f intervalos p u =
        ⟨SymSet.vacio, "muestreo", some ("Error muestreo: " ++ e)⟩) := by
  constructor
  · intro e he
    have hcaso := calcular_recorrido_casos o d0 mi p u
    rcases hcaso with ⟨heq, _⟩ | ⟨fr, hd, hs, hne, _⟩
    · rw [heq, recorridoFallback.eq_def, he]
    · exfalso
      rcases hsim with h1 | ⟨e2, h2⟩ | h3
      · rw [hd] at h1
        exact Bool.noConfusion h1
      · rw [hs] at h2
        exact Except.noConfusion h2
      · rw [hs] at h3
        injection h3 with h4
        exact hne h4
  · intro f intervalos e hf herr
    rw [muestreoResultado, herr]

/-- Witness for C9: with the symbolic stage unavailable and a lambdify that
raises, the result is the empty set tagged "muestreo" with the diagnostic. -/
theorem calcular_recorrido_c9_witness :
    calcular_recorrido oraculoLamFalla (some SymSet.reals) (some [(0, 1)]) 4 1000000 =
      ⟨SymSet.vacio, "muestreo", some ("Error muestreo: " ++ "lambdify fallo")⟩ := by
  have h := calcular_recorrido_c9 oraculoLamFalla (some SymSet.reals) (some [(0, 1)]) 4 1000000
    (Or.inl rfl)
  exact h.1 "lambdify fallo" rfl

/-- Claim C2: when direct substitution is classified bad and either
`usar_limite` is false, or the limit computation raises, or the limit is
itself bad, or the limit is not classified real while `solo_reales` is
true, `evaluar_punto` returns `fuera_de_dominio = true` with `exacto` and
`decimal` both `None` and no error set. -/
theorem evaluar_punto_c2 (o : EvalOracle) (expr x0 esub : SymExpr) (var : String)
    (ndigits : ℕ) (dominio0 : Option SymSet) (ul sa sr : Bool)
    (hpre : sa = true → ∃ pr, o.simplifyPre = Except.ok pr)
    (hsub : o.sustitucion = Except.ok esub)
    (hbad : esub.isBad = true)
    (hcaso : ul = false ∨ (∃ e, o.limite = Except.error e) ∨
      (∃ lim, o.limite = Except.ok lim ∧
        ¬(lim.isBad = false ∧ (sr = false ∨ lim.isReal = some true)))) :
    (evaluar_punto o expr x0 var ndigits dominio0 ul sa sr).fuera_de_dominio = true ∧
    (evaluar_punto o expr x0 var ndigits dominio0 ul sa sr).exacto = none ∧
    (evaluar_punto o expr x0 var ndigits dominio0 ul sa sr).decimal = none ∧
    (evaluar_punto o expr x0 var ndigits dominio0 ul sa sr).error = none := by
  obtain ⟨ps, lx, heq⟩ := evaluarAux_alcanzaRamaBad o expr x0 var ndigits dominio0 ul sa sr
    [] esub hpre hsub hbad
  rw [evaluar_punto, heq]
  exact ramaBad_fueraDeDominio o x0 ul sr ps lx hcaso

/-- Witness for C2 at a concrete oracle: `1/(x-1)` at 1 style scenario —
substitution is bad and the limit is itself bad (complex infinity). -/
theorem evaluar_punto_c2_witness :
    (evaluar_punto
        ⟨Except.ok SymSet.reals, Except.ok (⟨"1/(x-1)", false, none, false⟩, false),
          Except.ok true, Except.ok ⟨"zoo", true, none, true⟩,
          Except.ok ⟨"oo", true, none, true⟩, Except.error ("float(oo)"),
          Except.ok ⟨"zoo", true, none, true⟩, Except.error ("float(zoo)")⟩
        ⟨"1/(x-1)", false, none, false⟩ ⟨"1", false, some true, true⟩ "x" 8 none true true
        true).fuera_de_dominio = true ∧
    (evaluar_punto
        ⟨Except.ok SymSet.reals, Except.ok (⟨"1/(x-1)", false, none, false⟩, false),
          Except.ok true, Except.ok ⟨"zoo", true, none, true⟩,
          Except.ok ⟨"oo", true, none, true⟩, Except.error ("float(oo)"),
          Except.ok ⟨"zoo", true, none, true⟩, Except.error ("float(zoo)")⟩
        ⟨"1/(x-1)", false, none, false⟩ ⟨"1", false, some true, true⟩ "x" 8 none true true
        true).error = none := by
  have h := evaluar_punto_c2
    ⟨Except.ok SymSet.reals, Except.ok (⟨"1/(x-1)", false, none, false⟩, false),
      Except.ok true, Except.ok ⟨"zoo", true, none, true⟩,
      Except.ok ⟨"oo", true, none, true⟩, Except.error ("float(oo)"),
      Except.ok ⟨"zoo", true, none, true⟩, Except.error ("float(zoo)")⟩
    ⟨"1/(x-1)", false, none, false⟩ ⟨"1", false, some true, true⟩
    ⟨"zoo", true, none, true⟩ "x" 8 none true true true
    (fun _ => ⟨(⟨"1/(x-1)", false, none, false⟩, false), rfl⟩) rfl rfl
    (Or.inr (Or.inr ⟨⟨"oo", true, none, true⟩, rfl, fun hc => Bool.noConfusion hc.1⟩))
  exact ⟨h.1, h.2.2.2⟩

/-- Claim C4: every result of `evaluar_punto` satisfies the terminal-outcome
invariant — exactly one of (`exacto` present), (`fuera_de_dominio` true),
(`error` present) holds — its step list is non-empty, and evaluation is
append-only: run from any initial step list, the result extends it. -/
theorem evaluar_punto_c4 (o : EvalOracle) (expr x0 : SymExpr) (var : String)
    (ndigits : ℕ) (dominio0 : Option SymSet) (ul sa sr : Bool) :
    exactamenteUno ((evaluar_punto o expr x0 var ndigits dominio0 ul sa sr).exacto.isSome = true)
      ((evaluar_punto o expr x0 var ndigits dominio0 ul sa sr).fuera_de_dominio = true)
      ((evaluar_punto o expr x0 var ndigits dominio0 ul sa sr).error.isSome = true) ∧
    (evaluar_punto o expr x0 var ndigits dominio0 ul sa sr).pasos ≠ [] ∧
    (∀ pasos0, ∃ suf,
      (evaluarAux o expr x0 var ndigits dominio0 ul sa sr pasos0).pasos = pasos0 ++ suf) := by
  have h := evaluarAux_props o expr x0 var ndigits dominio0 ul sa sr []
  exact ⟨h.1, h.2.1, fun pasos0 => (evaluarAux_props o expr x0 var ndigits dominio0 ul sa sr
    pasos0).2.2⟩

/-- Counterexample to claim C5 as stated: the source records the per-interval
`(min, max)` over all finite values, not only the sub-threshold ones.  With
both sample values below `-umbral` (here `-2000000-q` at `q = 0, 1` against
`umbral = 10^6`), the code reports `Interval(-oo, -2000000)` — a finite right
endpoint beyond the threshold in absolute value — while the spec-worded
recording has no sub-threshold value to record and yields the empty set. -/
theorem reclamoC5_contraejemplo : ¬ reclamoC5 := by
  intro h
  have heq := h oraculoC5 fEjC5 [(0, 1)] 2 1000000
  have h1 : muestreoResultado oraculoC5 fEjC5 [(0, 1)] 2 1000000 =
      ⟨SymSet.intervalo Extremo.negInf (Extremo.fin (-2000000)), "muestreo",
        some ("muestras=" ++ toString 2)⟩ := by
    norm_num [muestreoResultado, muestreoLoop, pasoIntervalo, denLam, oraculoC5,
      pasoIntervaloOk, finitosIntervalo, linspace, List.range_succ, valoresMuestra, finitos,
      fEjC5, List.filterMap_cons, List.filterMap_nil, minimoLista, maximoLista]
  have h2 : muestreoResultadoSegunSpec oraculoC5 fEjC5 [(0, 1)] 2 1000000 =
      ⟨SymSet.vacio, "muestreo", some ("No se pudo muestrear el dominio")⟩ := by
    norm_num [muestreoResultadoSegunSpec, muestreoLoopSegunSpec, denLam, oraculoC5,
      pasoIntervaloSegunSpec, finitosIntervalo, linspace, List.range_succ, valoresMuestra,
      finitos, fEjC5, List.filterMap_cons, List.filterMap_nil, minimoLista, maximoLista,
      List.filter_cons, abs]
  have hch := h1.symm.trans (heq.trans h2)
  simp at hch

/-- Claim C5 amended: in the sampling fallback, each interval records the
`(min, max)` of all its surviving finite values (the threshold only sets
the unboundedness flags, it does not filter the recorded extrema), so the
final set is empty when no finite value survives anywhere, and otherwise a
single interval whose left endpoint is `-oo` if some finite value fell
below `-umbral` and the overall minimum of all finite values otherwise,
and symmetrically for the right endpoint with `+umbral` and the maximum. -/
theorem muestreo_c5_enmendada (o : RecOracle) (f : ℚ → Option ValorNum)
    (intervalos : List (ℚ × ℚ)) (puntos : ℕ) (umbral : ℚ)
    (df? : Option (ℚ → Option ValorNum)) (hden : denLam o = Except.ok df?) :
    (todosFinitos f df? puntos intervalos = [] →
      muestreoResultado o f intervalos puntos umbral =
        ⟨SymSet.vacio, "muestreo", some ("No se pudo muestrear el dominio")⟩) ∧
    (todosFinitos f df? puntos intervalos ≠ [] →
      muestreoResultado o f intervalos puntos umbral =
        ⟨SymSet.intervalo
            (if (todosFinitos f df? puntos intervalos).any (fun q => decide (q < -umbral)) = true
             then Extremo.negInf
             else Extremo.fin (minimoLista (todosFinitos f df? puntos intervalos)))
            (if (todosFinitos f df? puntos intervalos).any (fun q => decide (umbral < q)) = true
             then Extremo.posInf
             else Extremo.fin (maximoLista (todosFinitos f df? puntos intervalos))),
          "muestreo", some ("muestras=" ++ toString puntos)⟩) :=
  muestreoResultado_car o f intervalos puntos umbral df? hden

/-- Witness for the amended C5 at the concrete counterexample input: both
finite values lie below `-umbral`, so the reported interval is
`Interval(-oo, -2000000)`, with the maximum taken over all finite values. -/
theorem muestreo_c5_enmendada_witness :
    muestreoResultado oraculoC5 fEjC5 [(0, 1)] 2 1000000 =
      ⟨SymSet.intervalo Extremo.negInf (Extremo.fin (-2000000)), "muestreo",
        some ("muestras=" ++ toString 2)⟩ := by
  have hT : todosFinitos fEjC5 none 2 [(0, 1)] = [-2000000, -2000001] := by
    norm_num [todosFinitos, finitosIntervalo, linspace, List.range_succ, valoresMuestra,
      finitos, fEjC5, List.filterMap_cons, List.filterMap_nil]
  have h := (muestreo_c5_enmendada oraculoC5 fEjC5 [(0, 1)] 2 1000000 none rfl).2
    (by rw [hT]; exact List.cons_ne_nil _ _)
  rw [hT] at h
  rw [h]
  norm_num [minimoLista, maximoLista]

theorem extLe_negInf (b : Extremo) : extLe Extremo.negInf b = true := by
  cases b <;> rfl

theorem extLe_posInf (a : Extremo) : extLe a Extremo.posInf = true := by
  cases a <;> rfl

/-- Counterexample to claim C6 as stated: `linspace` grids are not nested,
so a denser grid can miss an extremum a coarser grid sampled.  With a spike
of height 100 at `x = 1/2` on `[0, 1]`, the 3-point grid `{0, 1/2, 1}`
reports `[0, 100]` while the 4-point grid `{0, 1/3, 2/3, 1}` reports the
strictly narrower `[0, 0]`. -/
theorem reclamoC6_contraejemplo : ¬ reclamoC6 := by
  intro h
  have h3 : muestreoResultado oraculoC6 fEjC6 [(0, 1)] 3 1000000 =
      ⟨SymSet.intervalo (Extremo.fin 0) (Extremo.fin 100), "muestreo",
        some ("muestras=" ++ toString 3)⟩ := by
    norm_num [muestreoResultado, muestreoLoop, pasoIntervalo, denLam, oraculoC6,
      pasoIntervaloOk, finitosIntervalo, linspace, List.range_succ, valoresMuestra, finitos,
      fEjC6, List.filterMap_cons, List.filterMap_nil, minimoLista, maximoLista]
  have h4 : muestreoResultado oraculoC6 fEjC6 [(0, 1)] 4 1000000 =
      ⟨SymSet.intervalo (Extremo.fin 0) (Extremo.fin 0), "muestreo",
        some ("muestras=" ++ toString 4)⟩ := by
    norm_num [muestreoResultado, muestreoLoop, pasoIntervalo, denLam, oraculoC6,
      pasoIntervaloOk, finitosIntervalo, linspace, List.range_succ, valoresMuestra, finitos,
      fEjC6, List.filterMap_cons, List.filterMap_nil, minimoLista, maximoLista]
  exact h oraculoC6 fEjC6 [(0, 1)] 1000000 3 4 (by norm_num)
    ⟨Extremo.fin 0, Extremo.fin 0, Extremo.fin 0, Extremo.fin 100,
      by rw [h4], by rw [h3], by norm_num [extLe], by norm_num [extLe], by norm_num⟩

/-- Claim C6 amended: the sampling fallback is monotone in the sample
density only for refining grids — whenever every grid point of the run
with `n1` points per interval also appears in the run with `n2` points
(e.g. nested `linspace` grids), the `n2` interval contains the `n1`
interval, so it is never strictly narrower.  (Without grid nesting the
property fails, see the counterexample.) -/
theorem muestreo_c6_enmendada (o : RecOracle) (f : ℚ → Option ValorNum)
    (intervalos : List (ℚ × ℚ)) (umbral : ℚ) (n1 n2 : ℕ)
    (df? : Option (ℚ → Option ValorNum)) (hden : denLam o = Except.ok df?)
    (hgrid : ∀ I, I ∈ intervalos → ∀ p, p ∈ linspace I.1 I.2 n1 → p ∈ linspace I.1 I.2 n2)
    (l1 h1 : Extremo)
    (hr1 : (muestreoResultado o f intervalos n1 umbral).conjunto = SymSet.intervalo l1 h1) :
    ∃ l2 h2, (muestreoResultado o f intervalos n2 umbral).conjunto = SymSet.intervalo l2 h2 ∧
      extLe l2 l1 = true ∧ extLe h1 h2 = true := by
  have hsub := todosFinitos_mem_of_mem f df? n1 n2 intervalos hgrid
  by_cases hT1 : todosFinitos f df? n1 intervalos = []
  · have hv := (muestreoResultado_car o f intervalos n1 umbral df? hden).1 hT1
    rw [hv] at hr1
    exact absurd hr1 (by simp)
  · obtain ⟨v, hv⟩ := List.exists_mem_of_ne_nil _ hT1
    have hT2 : todosFinitos f df? n2 intervalos ≠ [] := List.ne_nil_of_mem (hsub v hv)
    have e1 := (muestreoResultado_car o f intervalos n1 umbral df? hden).2 hT1
    have e2 := (muestreoResultado_car o f intervalos n2 umbral df? hden).2 hT2
    rw [e1] at hr1
    injection hr1 with hl1 hh1
    refine ⟨_, _, by rw [e2], ?_, ?_⟩
    · rw [← hl1]
      cases hn2 : (todosFinitos f df? n2 intervalos).any (fun q => decide (q < -umbral)) with
      | true =>
          simp only [if_true]
          exact extLe_negInf _
      | false =>
          have hn1 : (todosFinitos f df? n1 intervalos).any
              (fun q => decide (q < -umbral)) = false := by
            cases hc : (todosFinitos f df? n1 intervalos).any (fun q => decide (q < -umbral)) with
            | false => rfl
            | true =>
                exfalso
                obtain ⟨w, hw, hwlt⟩ := List.any_eq_true.mp hc
                have hc2 : (todosFinitos f df? n2 intervalos).any
                    (fun q => decide (q < -umbral)) = true :=
                  List.any_eq_true.mpr ⟨w, hsub w hw, hwlt⟩
                rw [hn2] at hc2
                exact Bool.noConfusion hc2
          rw [hn1, if_neg Bool.false_ne_true, if_neg Bool.false_ne_true]
          simp only [extLe]
          exact decide_eq_true
            (minimoLista_le _ _ (hsub _ (minimoLista_mem _ hT1)))
    · rw [← hh1]
      cases hp2 : (todosFinitos f df? n2 intervalos).any (fun q => decide (umbral < q)) with
      | true =>
          simp only [if_true]
          exact extLe_posInf _
      | false =>
          have hp1 : (todosFinitos f df? n1 intervalos).any
              (fun q => decide (umbral < q)) = false := by
            cases hc : (todosFinitos f df? n1 intervalos).any (fun q => decide (umbral < q)) with
            | false => rfl
            | true =>
                exfalso
                obtain ⟨w, hw, hwlt⟩ := List.any_eq_true.mp hc
                have hc2 : (todosFinitos f df? n2 intervalos).any
                    (fun q => decide (umbral < q)) = true :=
                  List.any_eq_true.mpr ⟨w, hsub w hw, hwlt⟩
                rw [hp2] at hc2
                exact Bool.noConfusion hc2
          rw [hp1, if_neg Bool.false_ne_true, if_neg Bool.false_ne_true]
          simp only [extLe]
          exact decide_eq_true
            (le_maximoLista _ _ (hsub _ (maximoLista_mem _ hT1)))

/-- Witness for the amended C6: on `[0, 1]` the 2-point grid is contained
in the 3-point grid, and the reported interval widens from `[0, 0]` to
`[0, 100]`. -/
theorem muestreo_c6_enmendada_witness :
    ∃ l2 h2, (muestreoResultado oraculoC6 fEjC6 [(0, 1)] 3 1000000).conjunto =
      SymSet.intervalo l2 h2 ∧ extLe l2 (Extremo.fin 0) = true ∧
      extLe (Extremo.fin 0) h2 = true := by
  have g2 : linspace 0 1 2 = [0, 1] := by norm_num [linspace, List.range_succ]
  have g3 : linspace 0 1 3 = [0, 1/2, 1] := by norm_num [linspace, List.range_succ]
  have hgrid : ∀ I, I ∈ [((0 : ℚ), (1 : ℚ))] → ∀ p, p ∈ linspace I.1 I.2 2 →
      p ∈ linspace I.1 I.2 3 := by
    intro I hI p hp
    simp only [List.mem_singleton] at hI
    subst hI
    rw [g2] at hp
    rw [g3]
    rcases List.mem_cons.mp hp with rfl | hp2
    · exact List.mem_cons_self _ _
    · rcases List.mem_cons.mp hp2 with rfl | hp3
      · simp
      · cases hp3
  have hr1 : (muestreoResultado oraculoC6 fEjC6 [(0, 1)] 2 1000000).conjunto =
      SymSet.intervalo (Extremo.fin 0) (Extremo.fin 0) := by
    norm_num [muestreoResultado, muestreoLoop, pasoIntervalo, denLam, oraculoC6,
      pasoIntervaloOk, finitosIntervalo, linspace, List.range_succ, valoresMuestra, finitos,
      fEjC6, List.filterMap_cons, List.filterMap_nil, minimoLista, maximoLista]
  exact muestreo_c6_enmendada oraculoC6 fEjC6 [(0, 1)] 1000000 2 3 none rfl hgrid
    (Extremo.fin 0) (Extremo.fin 0) hr1
